import Mathlib

/-!
Verification of the `file-counter` scanner (`pkg/scanner/scanner.go`).

The Go code is shallowly embedded: machine `int64` counters become `Int`,
the filesystem is an explicit inductive tree, `os.Lstat` outcomes are passed
as `Except String FileInfo` values, and `float64` formatting in `FormatBytes`
is modelled with exact rational arithmetic (scaled integers) using
round-half-to-even, which agrees with Go's `%.1f` on every value whose
quotient is exactly representable.
-/

namespace FileCounter

/-- Result of a successful `os.Lstat`: the only fields the scanner reads are
`IsDir()` and `Size()`. -/
structure FileInfo where
  isDir : Bool
  size : Int
deriving DecidableEq, Repr

/-- The shared counter fields of `Scanner` (`fileCount`, `dirCount`,
`errorCount`, `skippedCount`, `bytesScanned`, all Go `int64`) together with the
mutex-guarded `lastError` string (`none` = never set). -/
structure Counters where
  fileCount : Int
  dirCount : Int
  errorCount : Int
  skippedCount : Int
  bytesScanned : Int
  lastError : Option String
deriving DecidableEq, Repr

/-- Fresh counters of a newly constructed `Scanner`: Go zero values. -/
def Counters.init : Counters :=
  { fileCount := 0, dirCount := 0, errorCount := 0, skippedCount := 0
    bytesScanned := 0, lastError := none }

/-- The fixed denylist `skipPaths` from `ShouldSkipPath`. -/
def skipPaths : List String :=
  ["/proc", "/sys", "/dev", "/run", "/tmp", "/var/run", "/var/lock", "/var/tmp"]

/-- Go's `strings.HasPrefix`, as a structural recursion over the characters
of the two strings. -/
def strStartsWith (pre s : String) : Bool :=
  pre.data.isPrefixOf s.data

/-- Model of `Scanner.ShouldSkipPath`: the path equals a denylist entry, or
`filepath.HasPrefix(path, entry + "/")` holds; on Unix `filepath.HasPrefix`
is plain `strings.HasPrefix`. -/
def ShouldSkipPath (path : String) : Bool :=
  skipPaths.any fun sp => path == sp || strStartsWith (sp ++ "/") path

/-- Model of `Scanner.ProcessPath`: the `os.Lstat` outcome is supplied as `stat`.
On failure: `errorCount++` and `setLastError(fmt.Sprintf("Error getting info
for %s: %v", path, err))`, then return. On success: a directory bumps
`dirCount`, anything else bumps `fileCount` and adds `info.Size()` to
`bytesScanned`; independently `ShouldSkipPath` bumps `skippedCount`. -/
def ProcessPath (path : String) (stat : Except String FileInfo) (s : Counters) :
    Counters :=
  match stat with
  | .error e =>
      { s with errorCount := s.errorCount + 1
               lastError := some ("Error getting info for " ++ path ++ ": " ++ e) }
  | .ok info =>
      let s1 :=
        if info.isDir then
          { s with dirCount := s.dirCount + 1 }
        else
          { s with fileCount := s.fileCount + 1
                   bytesScanned := s.bytesScanned + info.size }
      if ShouldSkipPath path then { s1 with skippedCount := s1.skippedCount + 1 }
      else s1

/-- Round `num / den` to the nearest integer, ties to even — the rounding Go's
`%.1f` performs on an exactly-representable quotient. -/
def roundHalfEven (num den : Nat) : Nat :=
  let q := num / den
  let r := num % den
  if 2 * r < den then q
  else if den < 2 * r then q + 1
  else if q % 2 = 0 then q else q + 1

/-- The `for n := bytes / unit; n >= unit; n /= unit` loop of `FormatBytes`,
accumulating `div` and `exp` exactly as the Go code does; returns the final
`(div, exp)`. -/
def fbLoop (n div exp : Nat) : Nat × Nat :=
  if 1024 ≤ n then fbLoop (n / 1024) (div * 1024) (exp + 1) else (div, exp)
termination_by n
decreasing_by exact Nat.div_lt_self (by omega) (by omega)

/-- The `(div, exp)` pair as computed by `FormatBytes` for a byte count `b ≥ 1024`. -/
def fbDivExp (b : Nat) : Nat × Nat :=
  fbLoop (b / 1024) 1024 0

/-- The unit letters `"KMGTPE"` indexed by `exp`. -/
def fbUnits : List Char := ['K', 'M', 'G', 'T', 'P', 'E']

/-- Render a tenths-scaled natural number the way `%.1f` lays out its digits:
integer part, a dot, one decimal digit. -/
def renderTenths (t : Nat) : String :=
  toString (t / 10) ++ "." ++ toString (t % 10)

/-- Model of `scanner.FormatBytes`. Below 1024 the Go code prints `"%d B"`; otherwise
it computes `(div, exp)` with the division loop and prints
`"%.1f %cB"` with `float64(bytes)/float64(div)` and `"KMGTPE"[exp]`.
The float division and formatting are modelled exactly: tenths of the
rational `bytes / div`, rounded half to even. -/
def FormatBytes (bytes : Int) : String :=
  if bytes < 1024 then toString bytes ++ " B"
  else
    let b := bytes.toNat
    let p := fbDivExp b
    renderTenths (roundHalfEven (10 * b) p.1) ++ " " ++
      String.singleton (fbUnits.getD p.2 'B') ++ "B"

/-- One unfolding step of the division loop when the guard fails. -/
theorem fbLoop_lt (n div exp : Nat) (h : n < 1024) : fbLoop n div exp = (div, exp) := by
  rw [fbLoop]
  simp [Nat.not_le.mpr h]

/-- One unfolding step of the division loop when the guard holds. -/
theorem fbLoop_ge (n div exp : Nat) (h : 1024 ≤ n) :
    fbLoop n div exp = fbLoop (n / 1024) (div * 1024) (exp + 1) := by
  rw [fbLoop]
  simp [h]

/-- Invariant of the `FormatBytes` division loop: starting from a state where
`div = 1024 ^ (exp + 1)`, `n = b / div` and `div ≤ b`, the loop ends with
`div = 1024 ^ (exp + 1)` for the final `exp`, and `div ≤ b < 1024 * div`. -/
theorem fbLoop_spec (b : Nat) : ∀ n div exp, div = 1024 ^ (exp + 1) → n = b / div →
    div ≤ b →
    (fbLoop n div exp).1 = 1024 ^ ((fbLoop n div exp).2 + 1) ∧
      (fbLoop n div exp).1 ≤ b ∧ b < 1024 * (fbLoop n div exp).1 := by
  intro n
  induction n using Nat.strong_induction_on with
  | _ n ih =>
    intro div exp hdiv hn hle
    have hdivpos : 0 < div := by
      rw [hdiv]; exact Nat.pos_pow_of_pos _ (by norm_num)
    rcases Nat.lt_or_ge n 1024 with h | h
    · rw [fbLoop_lt n div exp h]
      refine ⟨hdiv, hle, ?_⟩
      have := (Nat.div_lt_iff_lt_mul hdivpos).mp (hn ▸ h)
      omega
    · rw [fbLoop_ge n div exp h]
      have hnpos : 0 < n := by omega
      refine ih (n / 1024) (Nat.div_lt_self hnpos (by norm_num)) (div * 1024)
        (exp + 1) ?_ ?_ ?_
      · rw [hdiv, ← pow_succ]
      · rw [hn, Nat.div_div_eq_div_mul]
      · have := (Nat.le_div_iff_mul_le hdivpos).mp (hn ▸ h)
        omega

/-- The `(div, exp)` pair computed by `FormatBytes` for `b ≥ 1024` satisfies
`div = 1024 ^ (exp + 1)` and `div ≤ b < 1024 * div`. -/
theorem fbDivExp_spec (b : Nat) (hb : 1024 ≤ b) :
    (fbDivExp b).1 = 1024 ^ ((fbDivExp b).2 + 1) ∧
      (fbDivExp b).1 ≤ b ∧ b < 1024 * (fbDivExp b).1 := by
  simp only [fbDivExp]
  exact fbLoop_spec b (b / 1024) 1024 0 (by norm_num) rfl (by omega)

/-- For byte counts below `2 ^ 63` the loop exponent stays at most 5, the
index of the last letter of `"KMGTPE"`. -/
theorem fbDivExp_exp_le (b : Nat) (hb : 1024 ≤ b) (hub : b < 2 ^ 63) :
    (fbDivExp b).2 ≤ 5 := by
  obtain ⟨h1, h2, _⟩ := fbDivExp_spec b hb
  by_contra hgt
  have h6 : 6 ≤ (fbDivExp b).2 := by omega
  have : (1024 : Nat) ^ 7 ≤ 1024 ^ ((fbDivExp b).2 + 1) :=
    Nat.pow_le_pow_right (by norm_num) (by omega)
  have : (1024 : Nat) ^ 7 ≤ b := le_trans this (h1 ▸ h2)
  norm_num at this
  omega

end FileCounter

namespace FileCounter

/-- C1: on a successful (non-following) stat, `ProcessPath` bumps `dirCount`
for a directory, otherwise bumps `fileCount` and adds the size to
`bytesScanned`; orthogonally it bumps `skippedCount` exactly when
`ShouldSkipPath` flags the path, and it never touches `errorCount`.
Processing one regular 13-byte file from fresh counters gives
`fileCount = 1` and `bytesScanned = 13`. -/
theorem C1_processPath_success (path : String) (info : FileInfo) (s : Counters) :
    (ProcessPath path (.ok info) s).dirCount
        = s.dirCount + (if info.isDir then 1 else 0) ∧
    (ProcessPath path (.ok info) s).fileCount
        = s.fileCount + (if info.isDir then 0 else 1) ∧
    (ProcessPath path (.ok info) s).bytesScanned
        = s.bytesScanned + (if info.isDir then 0 else info.size) ∧
    (ProcessPath path (.ok info) s).skippedCount
        = s.skippedCount + (if ShouldSkipPath path then 1 else 0) ∧
    (ProcessPath path (.ok info) s).errorCount = s.errorCount ∧
    (ProcessPath "hello.txt" (.ok ⟨false, 13⟩) Counters.init).fileCount = 1 ∧
    (ProcessPath "hello.txt" (.ok ⟨false, 13⟩) Counters.init).bytesScanned = 13 := by
  refine ⟨?_, ?_, ?_, ?_, ?_, by decide, by decide⟩ <;>
    · simp only [ProcessPath]
      by_cases hd : info.isDir <;> by_cases hs : ShouldSkipPath path <;>
        simp [hd, hs]

/-- C3 counterexample: the claim's message format
`"error accessing stat for PATH: DETAIL"` is not what the code produces;
the code formats `"Error getting info for %s: %v"`. -/
theorem C3_message_counterexample :
    (ProcessPath "/a" (.error "permission denied") Counters.init).lastError ≠
      some "error accessing stat for /a: permission denied" := by decide

/-- C3 (amended): on stat failure `ProcessPath` bumps `errorCount`, records
`lastError = "Error getting info for PATH: DETAIL"`, and leaves `fileCount`,
`dirCount`, `skippedCount` and `bytesScanned` unchanged. -/
theorem C3_processPath_statFailure (path detail : String) (s : Counters) :
    (ProcessPath path (.error detail) s).errorCount = s.errorCount + 1 ∧
    (ProcessPath path (.error detail) s).lastError =
      some ("Error getting info for " ++ path ++ ": " ++ detail) ∧
    (ProcessPath path (.error detail) s).fileCount = s.fileCount ∧
    (ProcessPath path (.error detail) s).dirCount = s.dirCount ∧
    (ProcessPath path (.error detail) s).skippedCount = s.skippedCount ∧
    (ProcessPath path (.error detail) s).bytesScanned = s.bytesScanned := by
  simp [ProcessPath]

end FileCounter


namespace FileCounter

/-- Value of `FormatBytes` at the 1024 boundary. -/
theorem formatBytes_1024 : FormatBytes 1024 = "1.0 KB" := by
  have ht : Int.toNat 1024 = 1024 := rfl
  have h : fbDivExp (Int.toNat 1024) = (1024, 0) := by
    rw [ht]
    simp only [fbDivExp]
    norm_num
    rw [fbLoop_lt 1 1024 0 (by norm_num)]
  simp only [FormatBytes, h]
  decide

/-- Value of `FormatBytes` at 1.5 KiB. -/
theorem formatBytes_1536 : FormatBytes 1536 = "1.5 KB" := by
  have ht : Int.toNat 1536 = 1536 := rfl
  have h : fbDivExp (Int.toNat 1536) = (1024, 0) := by
    rw [ht]
    simp only [fbDivExp]
    norm_num
    rw [fbLoop_lt 1 1024 0 (by norm_num)]
  simp only [FormatBytes, h]
  decide

/-- Value of `FormatBytes` at one mebibyte. -/
theorem formatBytes_1M : FormatBytes 1048576 = "1.0 MB" := by
  have ht : Int.toNat 1048576 = 1048576 := rfl
  have h : fbDivExp (Int.toNat 1048576) = (1048576, 1) := by
    rw [ht]
    simp only [fbDivExp]
    norm_num
    rw [fbLoop_ge 1024 1024 0 (by norm_num)]
    norm_num
    rw [fbLoop_lt 1 1048576 1 (by norm_num)]
  simp only [FormatBytes, h]
  decide

/-- Value of `FormatBytes` at one gibibyte. -/
theorem formatBytes_1G : FormatBytes 1073741824 = "1.0 GB" := by
  have ht : Int.toNat 1073741824 = 1073741824 := rfl
  have h : fbDivExp (Int.toNat 1073741824) = (1073741824, 2) := by
    rw [ht]
    simp only [fbDivExp]
    norm_num
    rw [fbLoop_ge 1048576 1024 0 (by norm_num)]
    norm_num
    rw [fbLoop_ge 1024 1048576 1 (by norm_num)]
    norm_num
    rw [fbLoop_lt 1 1073741824 2 (by norm_num)]
  simp only [FormatBytes, h]
  decide

/-- Value of `FormatBytes` at one tebibyte. -/
theorem formatBytes_1T : FormatBytes 1099511627776 = "1.0 TB" := by
  have ht : Int.toNat 1099511627776 = 1099511627776 := rfl
  have h : fbDivExp (Int.toNat 1099511627776) = (1099511627776, 3) := by
    rw [ht]
    simp only [fbDivExp]
    norm_num
    rw [fbLoop_ge 1073741824 1024 0 (by norm_num)]
    norm_num
    rw [fbLoop_ge 1048576 1048576 1 (by norm_num)]
    norm_num
    rw [fbLoop_ge 1024 1073741824 2 (by norm_num)]
    norm_num
    rw [fbLoop_lt 1 1099511627776 3 (by norm_num)]
  simp only [FormatBytes, h]
  decide

/-- C4: `FormatBytes` prints `"<n> B"` below 1024; at or above 1024 it divides
by 1024 until the quotient drops below 1024, prints the value to one decimal
and the unit letter `K`/`M`/`G`/`T`/`P`/`E` at the loop exponent; and it maps
the spec's boundary table exactly. -/
theorem C4_formatBytes :
    (∀ n : Int, n < 1024 → FormatBytes n = toString n ++ " B") ∧
    (∀ n : Int, 1024 ≤ n → ∃ e : Nat,
        1024 ^ (e + 1) ≤ n.toNat ∧ n.toNat < 1024 ^ (e + 2) ∧
        FormatBytes n =
          renderTenths (roundHalfEven (10 * n.toNat) (1024 ^ (e + 1))) ++ " " ++
            String.singleton (fbUnits.getD e 'B') ++ "B") ∧
    FormatBytes 0 = "0 B" ∧ FormatBytes 512 = "512 B" ∧
    FormatBytes 1024 = "1.0 KB" ∧ FormatBytes 1536 = "1.5 KB" ∧
    FormatBytes 1048576 = "1.0 MB" ∧ FormatBytes 1073741824 = "1.0 GB" ∧
    FormatBytes 1099511627776 = "1.0 TB" := by
  refine ⟨?_, ?_, by decide, by decide, formatBytes_1024, formatBytes_1536,
    formatBytes_1M, formatBytes_1G, formatBytes_1T⟩
  · intro n h
    simp only [FormatBytes]
    rw [if_pos h]
  · intro n hn
    have hb : 1024 ≤ n.toNat := by omega
    obtain ⟨h1, h2, h3⟩ := fbDivExp_spec n.toNat hb
    refine ⟨(fbDivExp n.toNat).2, h1 ▸ h2, ?_, ?_⟩
    · calc n.toNat < 1024 * (fbDivExp n.toNat).1 := h3
        _ = 1024 ^ ((fbDivExp n.toNat).2 + 1) * 1024 := by rw [h1]; ring
        _ = 1024 ^ ((fbDivExp n.toNat).2 + 2) := by rw [← pow_succ]
    · simp only [FormatBytes]
      rw [if_neg (by omega : ¬ n < 1024), h1]

/-- C4 witness: the two quantified clauses of `C4_formatBytes` instantiated
at 100 and 2048. -/
theorem C4_formatBytes_witness :
    FormatBytes 100 = "100 B" ∧
    (∃ e : Nat, 1024 ^ (e + 1) ≤ Int.toNat 2048 ∧ Int.toNat 2048 < 1024 ^ (e + 2) ∧
      FormatBytes 2048 =
        renderTenths (roundHalfEven (10 * Int.toNat 2048) (1024 ^ (e + 1))) ++ " " ++
          String.singleton (fbUnits.getD e 'B') ++ "B") :=
  ⟨C4_formatBytes.1 100 (by norm_num), C4_formatBytes.2.1 2048 (by norm_num)⟩

/-- C5: `ShouldSkipPath` holds exactly when the path equals a denylist entry
or extends one with the path separator, by pure string comparison; the spec's
example paths behave as stated. -/
theorem C5_shouldSkipPath :
    (∀ p : String, ShouldSkipPath p = true ↔
      ∃ sp ∈ (["/proc", "/sys", "/dev", "/run", "/tmp",
               "/var/run", "/var/lock", "/var/tmp"] : List String),
        p = sp ∨ (sp ++ "/").data <+: p.data) ∧
    ShouldSkipPath "/proc" = true ∧ ShouldSkipPath "/proc/cpuinfo" = true ∧
    ShouldSkipPath "/sys" = true ∧ ShouldSkipPath "/dev/null" = true ∧
    ShouldSkipPath "/var/tmp" = true ∧ ShouldSkipPath "/home" = false ∧
    ShouldSkipPath "/etc" = false ∧ ShouldSkipPath "/var/log" = false := by
  refine ⟨?_, by decide, by decide, by decide, by decide, by decide,
    by decide, by decide, by decide⟩
  intro p
  simp only [ShouldSkipPath, skipPaths, strStartsWith, List.any_eq_true,
    Bool.or_eq_true, beq_iff_eq, List.isPrefixOf_iff_prefix]

/-- C5 witness: the characterization applied to `/proc/cpuinfo`. -/
theorem C5_shouldSkipPath_witness :
    ∃ sp ∈ (["/proc", "/sys", "/dev", "/run", "/tmp",
             "/var/run", "/var/lock", "/var/tmp"] : List String),
      "/proc/cpuinfo" = sp ∨ (sp ++ "/").data <+: "/proc/cpuinfo".data :=
  (C5_shouldSkipPath.1 "/proc/cpuinfo").mp (by decide)

/-- C9: every negative `int64` takes the `"<n> B"` branch (e.g. `-5`), and for
every input in `[1024, 2^63)` the loop exponent is at most 5, so the index
into the unit letters `"KMGTPE"` is in bounds. -/
theorem C9_formatBytes_total :
    (∀ n : Int, n < 0 → FormatBytes n = toString n ++ " B") ∧
    (∀ n : Int, 1024 ≤ n → n < 2 ^ 63 →
      (fbDivExp n.toNat).2 ≤ 5 ∧ (fbDivExp n.toNat).2 < fbUnits.length) ∧
    FormatBytes (-5) = "-5 B" := by
  refine ⟨?_, ?_, by decide⟩
  · intro n h
    simp only [FormatBytes]
    rw [if_pos (by omega)]
  · intro n h1 h2
    have hb : 1024 ≤ n.toNat := by omega
    have hub : n.toNat < 2 ^ 63 := by omega
    have hle := fbDivExp_exp_le n.toNat hb hub
    refine ⟨hle, ?_⟩
    simp only [fbUnits, List.length]
    omega

/-- C9 witness: the two quantified clauses instantiated at `-7` and `2^62`. -/
theorem C9_formatBytes_total_witness :
    FormatBytes (-7) = "-7 B" ∧
    ((fbDivExp (Int.toNat (2 ^ 62))).2 ≤ 5 ∧
      (fbDivExp (Int.toNat (2 ^ 62))).2 < fbUnits.length) :=
  ⟨C9_formatBytes_total.1 (-7) (by norm_num),
    C9_formatBytes_total.2.1 (2 ^ 62) (by norm_num) (by norm_num)⟩

end FileCounter

namespace FileCounter

/-- A filesystem subtree as the scan sees it: a regular (non-directory) entry
with a byte size, an entry whose `lstat` fails, a directory whose
`readDirNames` fails, or a readable directory with an ordered child list. -/
inductive FsNode where
  | file (name : String) (size : Int)
  | broken (name : String)
  | unreadable (name : String)
  | dir (name : String) (children : List FsNode)
deriving Repr

/-- Base name of the entry. -/
def FsNode.name : FsNode → String
  | .file nm _ => nm
  | .broken nm => nm
  | .unreadable nm => nm
  | .dir nm _ => nm

/-- Whether `lstat` reports a directory (it does for an unreadable directory:
only its `readDirNames` fails). -/
def FsNode.isDirNode : FsNode → Bool
  | .file _ _ => false
  | .broken _ => false
  | .unreadable _ => true
  | .dir _ _ => true

/-- Whether `lstat` itself fails on the entry. -/
def FsNode.isBrokenNode : FsNode → Bool
  | .broken _ => true
  | _ => false

/-- A path handed to the worker pool, tagged with the callback invocation
index at which it was pushed and the stat data a worker will see. -/
structure PushItem where
  idx : Nat
  path : String
  info : FileInfo
deriving DecidableEq, Repr

/-- Observable state of one `walkDirectory` run: the number of callback
invocations so far, the paths pushed to the work channel, the directories
whose entries were read (with the invocation count at the moment of the
read), the walker-maintained `currentPath`, and the shared counters. -/
structure WalkSt where
  visits : Nat
  pushes : List PushItem
  reads : List (String × Nat)
  currentPath : String
  counters : Counters
deriving DecidableEq, Repr

/-- State at the start of a scan. -/
def WalkSt.init : WalkSt :=
  { visits := 0, pushes := [], reads := [], currentPath := ""
    counters := Counters.init }

/-- The cancellation signal: `ctx.Done()` is observed by every callback
invocation with index `≥ k` when `Stop` was called at instant `k`
(`none` = never cancelled). -/
def cancelSeen (c : Option Nat) (visits : Nat) : Bool :=
  match c with
  | none => false
  | some k => decide (k ≤ visits)

/-- The result a `filepath.WalkFunc` can return here: `nil` or
`filepath.SkipDir`. -/
inductive WRes where
  | ok
  | skipDir
deriving DecidableEq, Repr

/-- The anonymous callback passed to `filepath.Walk` in
`Scanner.walkDirectory`: first a non-blocking check of `ctx.Done()`
(cancelled → `SkipDir`); then, on a traversal error, `errorCount++` and
`setLastError("Error accessing %s: %v")` and `nil`; otherwise
`setCurrentPath` and a push of the path onto `pathChan` (the push also
selects on `ctx.Done()`, which within one invocation shows the same value as
the entry check). -/
def walkFn (c : Option Nat) (path : String) (arg : Except String FileInfo)
    (s : WalkSt) : WalkSt × WRes :=
  if cancelSeen c s.visits then
    ({ s with visits := s.visits + 1 }, .skipDir)
  else
    match arg with
    | .error e =>
        ({ s with visits := s.visits + 1
                  counters := { s.counters with
                    errorCount := s.counters.errorCount + 1
                    lastError :=
                      some ("Error accessing " ++ path ++ ": " ++ e) } },
         .ok)
    | .ok info =>
        ({ s with visits := s.visits + 1
                  currentPath := path
                  pushes := s.pushes ++ [⟨s.visits, path, info⟩] }, .ok)

mutual

/-- Go's `path/filepath.walk(path, info, walkFn)` (called after a successful
`lstat` of `path`): a non-directory is just visited; a directory has its
entries read FIRST (`readDirNames`), then the callback runs, then — unless it
returned `SkipDir` — the children are walked in order. An unreadable
directory passes the readdir error to the callback and is not descended. -/
def walkNode (c : Option Nat) (path : String) (n : FsNode) (s : WalkSt) :
    WalkSt × WRes :=
  match n with
  | .file _ sz => walkFn c path (.ok ⟨false, sz⟩) s
  | .broken _ => (s, .ok)
  | .unreadable _ => walkFn c path (.error "readdir failed") s
  | .dir _ cs =>
      let s0 := { s with reads := s.reads ++ [(path, s.visits)] }
      let r := walkFn c path (.ok ⟨true, 0⟩) s0
      match r.2 with
      | .skipDir => (r.1, .skipDir)
      | .ok => walkChildren c path cs r.1
termination_by (sizeOf n, 0)

/-- One iteration of the loop over a directory's entries: `lstat` the child
(failure → callback with the error, never aborts because this callback only
returns `nil` or `SkipDir`); otherwise recurse; `SkipDir` coming back from a
non-directory aborts the remaining siblings (the `Bool` result). -/
def walkChild (c : Option Nat) (parent : String) (child : FsNode)
    (s : WalkSt) : WalkSt × Bool :=
  match child with
  | .broken nm =>
      ((walkFn c (parent ++ "/" ++ nm) (.error "lstat failed") s).1, false)
  | .file nm sz =>
      let r := walkNode c (parent ++ "/" ++ nm) (.file nm sz) s
      match r.2 with
      | .ok => (r.1, false)
      | .skipDir => (r.1, true)
  | .unreadable nm =>
      let r := walkNode c (parent ++ "/" ++ nm) (.unreadable nm) s
      match r.2 with
      | .ok => (r.1, false)
      | .skipDir => (r.1, false)
  | .dir nm cs =>
      let r := walkNode c (parent ++ "/" ++ nm) (.dir nm cs) s
      match r.2 with
      | .ok => (r.1, false)
      | .skipDir => (r.1, false)
termination_by (sizeOf child, 1)

/-- The loop over a directory's entries. -/
def walkChildren (c : Option Nat) (parent : String) (cs : List FsNode)
    (s : WalkSt) : WalkSt × WRes :=
  match cs with
  | [] => (s, .ok)
  | ch :: rest =>
      let r := walkChild c parent ch s
      if r.2 then (r.1, .skipDir) else walkChildren c parent rest r.1
termination_by (sizeOf cs, 0)

end

/-- Model of `Scanner.walkDirectory(root, pathChan)`: `filepath.Walk` first `lstat`s
the root itself, reporting a failure to the callback, otherwise walks it. -/
def walkDirectory (root : String) (n : FsNode) (c : Option Nat) : WalkSt :=
  match n with
  | .broken _ => (walkFn c root (.error "lstat failed") WalkSt.init).1
  | _ => (walkNode c root n WalkSt.init).1

mutual

/-- Total number of entries in the tree (the `K` of the spec). -/
def countNodes : FsNode → Nat
  | .file _ _ => 1
  | .broken _ => 1
  | .unreadable _ => 1
  | .dir _ cs => 1 + countNodesList cs

/-- Total number of entries in a child list. -/
def countNodesList : List FsNode → Nat
  | [] => 0
  | ch :: rest => countNodes ch + countNodesList rest

end

mutual

/-- Entries that an uncancelled walk pushes to the workers: every entry whose
`lstat` and (for directories) `readDirNames` succeed. -/
def countGood : FsNode → Nat
  | .file _ _ => 1
  | .broken _ => 0
  | .unreadable _ => 0
  | .dir _ cs => 1 + countGoodList cs

/-- Pushed entries of a child list. -/
def countGoodList : List FsNode → Nat
  | [] => 0
  | ch :: rest => countGood ch + countGoodList rest

end

mutual

/-- Entries the walker counts as traversal errors: failed `lstat` or failed
`readDirNames`. -/
def countBad : FsNode → Nat
  | .file _ _ => 0
  | .broken _ => 1
  | .unreadable _ => 1
  | .dir _ cs => countBadList cs

/-- Traversal errors of a child list. -/
def countBadList : List FsNode → Nat
  | [] => 0
  | ch :: rest => countBad ch + countBadList rest

end

/-- The worker pool of a completed, uncancelled scan: every pushed path is
handed to `ProcessPath` exactly once (channel semantics), in some order —
order is irrelevant to the final counters, so the queue order is used. In the
static model the stat a worker performs repeats the walker's `lstat` result. -/
def runWorkers (pushes : List PushItem) (cnt : Counters) : Counters :=
  pushes.foldl (fun acc q => ProcessPath q.path (.ok q.info) acc) cnt

/-- Final counters of a completed, uncancelled scan of the tree `n` rooted at
`root`: walker and workers mutate the same shared counters. -/
def ScanCounters (root : String) (n : FsNode) : Counters :=
  runWorkers (walkDirectory root n none).pushes (walkDirectory root n none).counters

end FileCounter

namespace FileCounter

/-- The uncancelled callback on a successful visit: bump the invocation
counter, record the current path, push the path. -/
theorem walkFn_none_ok (path : String) (info : FileInfo) (s : WalkSt) :
    walkFn none path (.ok info) s =
      ({ s with visits := s.visits + 1, currentPath := path
                pushes := s.pushes ++ [⟨s.visits, path, info⟩] }, .ok) := by
  simp [walkFn, cancelSeen]

/-- The uncancelled callback on a traversal error: bump the error counter and
record the message. -/
theorem walkFn_none_error (path e : String) (s : WalkSt) :
    walkFn none path (.error e) s =
      ({ s with visits := s.visits + 1
                counters := { s.counters with
                  errorCount := s.counters.errorCount + 1
                  lastError :=
                    some ("Error accessing " ++ path ++ ": " ++ e) } },
       .ok) := by
  simp [walkFn, cancelSeen]

/-- How one walk phase changes the observable state: `good` new pushes, `bad`
new traversal errors, file/dir/skip/byte counters untouched, `lastError` set
exactly when it was set before or a traversal error occurred. -/
def WalkDelta (s t : WalkSt) (good bad : Nat) : Prop :=
  t.pushes.length = s.pushes.length + good ∧
  t.counters.errorCount = s.counters.errorCount + (bad : Int) ∧
  t.counters.fileCount = s.counters.fileCount ∧
  t.counters.dirCount = s.counters.dirCount ∧
  t.counters.skippedCount = s.counters.skippedCount ∧
  t.counters.bytesScanned = s.counters.bytesScanned ∧
  t.counters.lastError.isSome = (s.counters.lastError.isSome || decide (0 < bad))

/-- Disjunction of positivity distributes over `decide`. -/
theorem decide_pos_add (a b : Nat) :
    (decide (0 < a) || decide (0 < b)) = decide (0 < a + b) := by
  by_cases h1 : 0 < a <;> by_cases h2 : 0 < b <;> simp [h1, h2]

/-- Walk deltas compose. -/
theorem WalkDelta.trans {s t u : WalkSt} {g1 b1 g2 b2 : Nat}
    (h1 : WalkDelta s t g1 b1) (h2 : WalkDelta t u g2 b2) :
    WalkDelta s u (g1 + g2) (b1 + b2) := by
  obtain ⟨a1, e1, f1, d1, k1, y1, l1⟩ := h1
  obtain ⟨a2, e2, f2, d2, k2, y2, l2⟩ := h2
  refine ⟨by omega, ?_, by rw [f2, f1], by rw [d2, d1], by rw [k2, k1],
    by rw [y2, y1], ?_⟩
  · rw [e2, e1]
    push_cast
    ring
  · rw [l2, l1, Bool.or_assoc, decide_pos_add]

/-- A state change that touches neither pushes nor counters is a zero delta. -/
theorem WalkDelta.of_untouched {s t : WalkSt} (hp : t.pushes = s.pushes)
    (hc : t.counters = s.counters) : WalkDelta s t 0 0 := by
  refine ⟨by simp [hp], ?_, ?_, ?_, ?_, ?_, ?_⟩ <;> rw [hc] <;> simp

/-- Adjust the indices of a delta. -/
theorem WalkDelta.cast {s t : WalkSt} {g b g' b' : Nat} (h : WalkDelta s t g b)
    (hg : g = g') (hb : b = b') : WalkDelta s t g' b' := by
  rw [← hg, ← hb]
  exact h

/-- A successful uncancelled visit is a `(1, 0)` delta. -/
theorem walkFn_none_ok_delta (path : String) (info : FileInfo) (s : WalkSt) :
    WalkDelta s (walkFn none path (.ok info) s).1 1 0 := by
  rw [walkFn_none_ok]
  refine ⟨by simp, by simp, by simp, by simp, by simp, by simp, by simp⟩

/-- An uncancelled error visit is a `(0, 1)` delta. -/
theorem walkFn_none_error_delta (path e : String) (s : WalkSt) :
    WalkDelta s (walkFn none path (.error e) s).1 0 1 := by
  rw [walkFn_none_error]
  refine ⟨by simp, by simp, by simp, by simp, by simp, by simp, by simp⟩

end FileCounter

namespace FileCounter

mutual

/-- An uncancelled walk of a non-broken node returns `nil` and contributes
`countGood` pushes and `countBad` traversal errors. -/
theorem walkNode_none_spec (path : String) (n : FsNode) (s : WalkSt)
    (h : n.isBrokenNode = false) :
    (walkNode none path n s).2 = .ok ∧
      WalkDelta s (walkNode none path n s).1 (countGood n) (countBad n) := by
  cases n with
  | file nm sz =>
      simp only [walkNode, countGood, countBad]
      exact ⟨by rw [walkFn_none_ok], walkFn_none_ok_delta path ⟨false, sz⟩ s⟩
  | broken nm => simp [FsNode.isBrokenNode] at h
  | unreadable nm =>
      simp only [walkNode, countGood, countBad]
      exact ⟨by rw [walkFn_none_error],
        walkFn_none_error_delta path "readdir failed" s⟩
  | dir nm cs =>
      simp only [walkNode]
      have hsc : (walkFn none path (.ok ⟨true, 0⟩)
          ({ s with reads := s.reads ++ [(path, s.visits)] } : WalkSt)).2 = .ok := by
        rw [walkFn_none_ok]
      simp only [hsc]
      refine ⟨(walkChildren_none_spec path cs _).1, ?_⟩
      have hd0 : WalkDelta s
          ({ s with reads := s.reads ++ [(path, s.visits)] } : WalkSt) 0 0 :=
        WalkDelta.of_untouched rfl rfl
      have hd1 := walkFn_none_ok_delta path (⟨true, 0⟩ : FileInfo)
        ({ s with reads := s.reads ++ [(path, s.visits)] } : WalkSt)
      have hrec := (walkChildren_none_spec path cs
        ((walkFn none path (.ok ⟨true, 0⟩)
          ({ s with reads := s.reads ++ [(path, s.visits)] } : WalkSt)).1)).2
      exact ((hd0.trans hd1).trans hrec).cast (by simp [countGood])
        (by simp [countBad])

/-- An uncancelled loop iteration never aborts and contributes the child's
`countGood` and `countBad`. -/
theorem walkChild_none_spec (parent : String) (child : FsNode) (s : WalkSt) :
    (walkChild none parent child s).2 = false ∧
      WalkDelta s (walkChild none parent child s).1 (countGood child)
        (countBad child) := by
  cases child with
  | broken nm =>
      simp only [walkChild, countGood, countBad]
      exact ⟨by trivial,
        walkFn_none_error_delta (parent ++ "/" ++ nm) "lstat failed" s⟩
  | file nm sz =>
      simp only [walkChild]
      have hrec := walkNode_none_spec (parent ++ "/" ++ nm) (.file nm sz) s
        (by simp [FsNode.isBrokenNode])
      simp only [hrec.1]
      exact ⟨by simp, hrec.2⟩
  | unreadable nm =>
      simp only [walkChild]
      have hrec := walkNode_none_spec (parent ++ "/" ++ nm) (.unreadable nm) s
        (by simp [FsNode.isBrokenNode])
      simp only [hrec.1]
      exact ⟨by simp, hrec.2⟩
  | dir nm cs =>
      simp only [walkChild]
      have hrec := walkNode_none_spec (parent ++ "/" ++ nm) (.dir nm cs) s
        (by simp [FsNode.isBrokenNode])
      simp only [hrec.1]
      exact ⟨by simp, hrec.2⟩

/-- An uncancelled loop over a child list returns `nil` and contributes the
list's `countGoodList` and `countBadList`. -/
theorem walkChildren_none_spec (parent : String) (cs : List FsNode)
    (s : WalkSt) :
    (walkChildren none parent cs s).2 = .ok ∧
      WalkDelta s (walkChildren none parent cs s).1 (countGoodList cs)
        (countBadList cs) := by
  cases cs with
  | nil =>
      simp only [walkChildren, countGoodList, countBadList]
      exact ⟨by simp, WalkDelta.of_untouched rfl rfl⟩
  | cons ch rest =>
      simp only [walkChildren]
      have h1 := walkChild_none_spec parent ch s
      simp only [h1.1, Bool.false_eq_true, if_false]
      have h2 := (walkChildren_none_spec parent rest
        (walkChild none parent ch s).1)
      refine ⟨h2.1, ?_⟩
      exact (h1.2.trans h2.2).cast (by simp [countGoodList])
        (by simp [countBadList])

end

end FileCounter

namespace FileCounter

mutual

/-- Every entry is either pushed or a traversal error. -/
theorem countNodes_eq (n : FsNode) : countNodes n = countGood n + countBad n := by
  cases n with
  | file nm sz => simp [countNodes, countGood, countBad]
  | broken nm => simp [countNodes, countGood, countBad]
  | unreadable nm => simp [countNodes, countGood, countBad]
  | dir nm cs =>
      simp only [countNodes, countGood, countBad]
      rw [countNodesList_eq cs]
      omega

/-- List version of `countNodes_eq`. -/
theorem countNodesList_eq (cs : List FsNode) :
    countNodesList cs = countGoodList cs + countBadList cs := by
  cases cs with
  | nil => simp [countNodesList, countGoodList, countBadList]
  | cons ch rest =>
      simp only [countNodesList, countGoodList, countBadList]
      rw [countNodes_eq ch, countNodesList_eq rest]
      omega

end

/-- Lemma: `ProcessPath` on a successful stat adds exactly one to
`fileCount + dirCount` and leaves `errorCount` alone. -/
theorem processPath_ok_shift (path : String) (info : FileInfo) (c : Counters) :
    (ProcessPath path (.ok info) c).fileCount +
        (ProcessPath path (.ok info) c).dirCount
      = c.fileCount + c.dirCount + 1 ∧
    (ProcessPath path (.ok info) c).errorCount = c.errorCount := by
  simp only [ProcessPath]
  by_cases hd : info.isDir <;> by_cases hs : ShouldSkipPath path <;>
    simp [hd, hs] <;> ring

/-- The worker pool turns each pushed path into exactly one unit of
`fileCount + dirCount` and never touches `errorCount`. -/
theorem runWorkers_spec (l : List PushItem) (c : Counters) :
    (runWorkers l c).fileCount + (runWorkers l c).dirCount
      = c.fileCount + c.dirCount + (l.length : Int) ∧
    (runWorkers l c).errorCount = c.errorCount := by
  induction l generalizing c with
  | nil => simp [runWorkers]
  | cons q rest ih =>
      simp only [runWorkers, List.foldl_cons] at ih ⊢
      have h1 := processPath_ok_shift q.path q.info c
      have h2 := ih (ProcessPath q.path (.ok q.info) c)
      refine ⟨?_, by rw [h2.2, h1.2]⟩
      rw [h2.1, h1.1]
      simp only [List.length_cons]
      push_cast
      ring

/-- An uncancelled `walkDirectory` on a node whose root `lstat` succeeds is a
plain walk from the fresh state. -/
theorem walkDirectory_not_broken (root : String) (n : FsNode) (c : Option Nat)
    (h : n.isBrokenNode = false) :
    walkDirectory root n c = (walkNode c root n WalkSt.init).1 := by
  cases n <;> simp_all [walkDirectory, FsNode.isBrokenNode]

/-- Bucket partition for a scan whose root `lstat` succeeds. -/
theorem scanCounters_not_broken (root : String) (n : FsNode)
    (h : n.isBrokenNode = false) :
    (ScanCounters root n).fileCount + (ScanCounters root n).dirCount +
      (ScanCounters root n).errorCount = (countNodes n : Int) := by
  simp only [ScanCounters, walkDirectory_not_broken root n none h]
  have hspec := (walkNode_none_spec root n WalkSt.init h).2
  obtain ⟨hp, herr, hf, hd, -, -, -⟩ := hspec
  have hw := runWorkers_spec (walkNode none root n WalkSt.init).1.pushes
    (walkNode none root n WalkSt.init).1.counters
  rw [hw.1, hw.2, hp, herr, hf, hd, countNodes_eq n]
  simp only [WalkSt.init, Counters.init, List.length_nil]
  push_cast
  ring

/-- C2: in a completed, uncancelled scan every entry of the tree lands in
exactly one of the three buckets (each queued path is processed exactly once),
so `fileCount + dirCount + errorCount = countNodes n` — the `K` of the
spec. -/
theorem C2_entry_partition (root : String) (n : FsNode) :
    (ScanCounters root n).fileCount + (ScanCounters root n).dirCount +
      (ScanCounters root n).errorCount = (countNodes n : Int) := by
  cases n with
  | broken nm =>
      simp [ScanCounters, walkDirectory, walkFn_none_error, runWorkers,
        WalkSt.init, Counters.init, countNodes]
  | file nm sz =>
      exact scanCounters_not_broken root (.file nm sz)
        (by simp [FsNode.isBrokenNode])
  | unreadable nm =>
      exact scanCounters_not_broken root (.unreadable nm)
        (by simp [FsNode.isBrokenNode])
  | dir nm cs =>
      exact scanCounters_not_broken root (.dir nm cs)
        (by simp [FsNode.isBrokenNode])

/-- Error tolerance for a walk whose root `lstat` succeeds. -/
theorem walker_errors_not_broken (root : String) (n : FsNode)
    (h : n.isBrokenNode = false) :
    (walkDirectory root n none).counters.errorCount = (countBad n : Int) ∧
    (walkDirectory root n none).pushes.length = countGood n ∧
    (walkDirectory root n none).counters.lastError.isSome
      = decide (0 < countBad n) := by
  rw [walkDirectory_not_broken root n none h]
  have hspec := (walkNode_none_spec root n WalkSt.init h).2
  obtain ⟨hp, herr, -, -, -, -, hl⟩ := hspec
  refine ⟨?_, ?_, ?_⟩
  · rw [herr]
    simp [WalkSt.init, Counters.init]
  · rw [hp]
    simp [WalkSt.init]
  · rw [hl]
    simp [WalkSt.init, Counters.init]

/-- C7: an uncancelled walk absorbs every traversal failure locally — the
final `errorCount` is exactly the number of unvisitable entries, every
visitable entry is still pushed (siblings of failed entries keep being
traversed), and `lastError` is recorded exactly when some failure occurred;
no per-path failure ever aborts the walk. -/
theorem C7_walker_error_tolerance (root : String) (n : FsNode) :
    (walkDirectory root n none).counters.errorCount = (countBad n : Int) ∧
    (walkDirectory root n none).pushes.length = countGood n ∧
    (walkDirectory root n none).counters.lastError.isSome
      = decide (0 < countBad n) := by
  cases n with
  | broken nm =>
      simp [walkDirectory, walkFn_none_error, WalkSt.init, Counters.init,
        countBad, countGood]
  | file nm sz =>
      exact walker_errors_not_broken root (.file nm sz)
        (by simp [FsNode.isBrokenNode])
  | unreadable nm =>
      exact walker_errors_not_broken root (.unreadable nm)
        (by simp [FsNode.isBrokenNode])
  | dir nm cs =>
      exact walker_errors_not_broken root (.dir nm cs)
        (by simp [FsNode.isBrokenNode])

end FileCounter

namespace FileCounter

/-- A single callback invocation under cancellation instant `k` only pushes
paths during invocations with index below `k`. -/
theorem walkFn_pushes_lt (k : Nat) (path : String)
    (arg : Except String FileInfo) (s : WalkSt)
    (h : ∀ q ∈ s.pushes, q.idx < k) :
    ∀ q ∈ (walkFn (some k) path arg s).1.pushes, q.idx < k := by
  unfold walkFn
  split
  · exact h
  · rename_i hnc
    cases arg with
    | error e => exact h
    | ok info =>
        intro q hq
        simp only [List.mem_append, List.mem_singleton] at hq
        rcases hq with hq | hq
        · exact h q hq
        · subst hq
          have : ¬ k ≤ s.visits := by simpa [cancelSeen] using hnc
          simpa using by omega

end FileCounter

namespace FileCounter

mutual

/-- Under cancellation instant `k`, a walk only pushes at invocations with
index below `k`. -/
theorem walkNode_pushes_lt (k : Nat) (path : String) (n : FsNode) (s : WalkSt)
    (h : ∀ q ∈ s.pushes, q.idx < k) :
    ∀ q ∈ (walkNode (some k) path n s).1.pushes, q.idx < k := by
  cases n with
  | file nm sz =>
      simp only [walkNode]
      exact walkFn_pushes_lt k path _ s h
  | broken nm =>
      simp only [walkNode]
      exact h
  | unreadable nm =>
      simp only [walkNode]
      exact walkFn_pushes_lt k path _ s h
  | dir nm cs =>
      simp only [walkNode]
      have h1 := walkFn_pushes_lt k path (.ok ⟨true, 0⟩)
        ({ s with reads := s.reads ++ [(path, s.visits)] } : WalkSt) h
      cases hsc : (walkFn (some k) path (.ok ⟨true, 0⟩)
          ({ s with reads := s.reads ++ [(path, s.visits)] } : WalkSt)).2 with
      | skipDir =>
          simp only [hsc]
          exact h1
      | ok =>
          simp only [hsc]
          exact walkChildren_pushes_lt k path cs _ h1

/-- Loop-iteration version of `walkNode_pushes_lt`. -/
theorem walkChild_pushes_lt (k : Nat) (parent : String) (child : FsNode)
    (s : WalkSt) (h : ∀ q ∈ s.pushes, q.idx < k) :
    ∀ q ∈ (walkChild (some k) parent child s).1.pushes, q.idx < k := by
  cases child with
  | broken nm =>
      simp only [walkChild]
      exact walkFn_pushes_lt k _ _ s h
  | file nm sz =>
      simp only [walkChild]
      have h1 := walkNode_pushes_lt k (parent ++ "/" ++ nm) (.file nm sz) s h
      cases hsc : (walkNode (some k) (parent ++ "/" ++ nm) (.file nm sz) s).2 with
      | ok => simp only [hsc]; exact h1
      | skipDir => simp only [hsc]; exact h1
  | unreadable nm =>
      simp only [walkChild]
      have h1 := walkNode_pushes_lt k (parent ++ "/" ++ nm) (.unreadable nm) s h
      cases hsc : (walkNode (some k) (parent ++ "/" ++ nm) (.unreadable nm) s).2 with
      | ok => simp only [hsc]; exact h1
      | skipDir => simp only [hsc]; exact h1
  | dir nm cs =>
      simp only [walkChild]
      have h1 := walkNode_pushes_lt k (parent ++ "/" ++ nm) (.dir nm cs) s h
      cases hsc : (walkNode (some k) (parent ++ "/" ++ nm) (.dir nm cs) s).2 with
      | ok => simp only [hsc]; exact h1
      | skipDir => simp only [hsc]; exact h1

/-- Child-list version of `walkNode_pushes_lt`. -/
theorem walkChildren_pushes_lt (k : Nat) (parent : String) (cs : List FsNode)
    (s : WalkSt) (h : ∀ q ∈ s.pushes, q.idx < k) :
    ∀ q ∈ (walkChildren (some k) parent cs s).1.pushes, q.idx < k := by
  cases cs with
  | nil =>
      simp only [walkChildren]
      exact h
  | cons ch rest =>
      simp only [walkChildren]
      have h1 := walkChild_pushes_lt k parent ch s h
      cases hsc : (walkChild (some k) parent ch s).2 with
      | true => simp [hsc]; exact h1
      | false => simp [hsc]; exact walkChildren_pushes_lt k parent rest _ h1

end

end FileCounter

namespace FileCounter

/-- C6 (amended): the callback checks the cancellation signal at the start of
every visit, and once the signal is raised no further paths are pushed onto
the work queue: every pushed path carries an invocation index from before the
cancellation instant. -/
theorem C6_no_push_after_cancel (root : String) (n : FsNode) (k : Nat) :
    (walkDirectory root n (some k)).pushes.all
      (fun q => decide (q.idx < k)) = true := by
  have hb : ∀ q ∈ (walkDirectory root n (some k)).pushes, q.idx < k := by
    cases n with
    | broken nm =>
        simp only [walkDirectory]
        exact walkFn_pushes_lt k root _ WalkSt.init (by simp [WalkSt.init])
    | file nm sz =>
        rw [walkDirectory_not_broken root _ _ (by simp [FsNode.isBrokenNode])]
        exact walkNode_pushes_lt k root _ WalkSt.init (by simp [WalkSt.init])
    | unreadable nm =>
        rw [walkDirectory_not_broken root _ _ (by simp [FsNode.isBrokenNode])]
        exact walkNode_pushes_lt k root _ WalkSt.init (by simp [WalkSt.init])
    | dir nm cs =>
        rw [walkDirectory_not_broken root _ _ (by simp [FsNode.isBrokenNode])]
        exact walkNode_pushes_lt k root _ WalkSt.init (by simp [WalkSt.init])
  simp only [List.all_eq_true, decide_eq_true_eq]
  exact hb

/-- C6 counterexample: the walk does NOT abandon the whole traversal and keeps
reading directory entries after the signal is raised. Tree: root `/r` with
subdirectories `d1` (containing file `f`) and `d2`; the signal is first
observed at callback invocation 2 (the visit of `/r/d1/f`). `filepath.Walk`
reads a directory's entries BEFORE its callback runs, so `/r/d2` still has its
entries read — at visit count 3, strictly after invocation 2 observed the
raised signal — while `/r/d2` itself is declined and never pushed. -/
theorem C6_read_after_cancel_counterexample :
    (walkDirectory "/r" (FsNode.dir "r" [FsNode.dir "d1" [FsNode.file "f" 5],
        FsNode.dir "d2" []]) (some 2)).reads
      = [("/r", 0), ("/r/d1", 1), ("/r/d2", 3)] ∧
    (walkDirectory "/r" (FsNode.dir "r" [FsNode.dir "d1" [FsNode.file "f" 5],
        FsNode.dir "d2" []]) (some 2)).pushes
      = [⟨0, "/r", ⟨true, 0⟩⟩, ⟨1, "/r/d1", ⟨true, 0⟩⟩] ∧
    ¬ ((walkDirectory "/r" (FsNode.dir "r" [FsNode.dir "d1" [FsNode.file "f" 5],
        FsNode.dir "d2" []]) (some 2)).reads.all fun r => decide (r.2 < 3)) = true := by
  refine ⟨?_, ?_, ?_⟩ <;>
    · norm_num [walkDirectory, walkNode, walkChild, walkChildren, walkFn,
        cancelSeen, WalkSt.init, Counters.init, FsNode.name]
      try decide

end FileCounter

namespace FileCounter

/-- The `Scanner` fields `Stop` and the workers touch: the shared counters and
the `context.Context` cancellation flag (`ctx.Done()` closed). -/
structure ScannerState where
  counters : Counters
  cancelled : Bool
deriving DecidableEq, Repr

/-- Model of `Scanner.Stop`: the body is exactly `s.cancel()`, which cancels the
context created in `NewScanner`; `context.CancelFunc` is idempotent and
returns without waiting for anything. -/
def Stop (s : ScannerState) : ScannerState :=
  { s with cancelled := true }

/-- One worker step on the shared state: `ProcessPath` mutates only the
counters, never the cancellation flag. -/
def ScannerState.processPath (path : String) (stat : Except String FileInfo)
    (s : ScannerState) : ScannerState :=
  { s with counters := ProcessPath path stat s.counters }

/-- C8: `Stop` is idempotent — any number of calls equals one call — it raises
the cancellation signal, it changes nothing but the signal (in particular it
returns without draining in-flight work, whose counters it leaves untouched),
and the signal stays raised across subsequent processing steps. -/
theorem C8_stop_idempotent (s : ScannerState) :
    Stop (Stop s) = Stop s ∧
    (Stop s).cancelled = true ∧
    (Stop s).counters = s.counters ∧
    (∀ path stat, (ScannerState.processPath path stat (Stop s)).cancelled
      = true) ∧
    (∀ path stat, (ScannerState.processPath path stat s).cancelled
      = s.cancelled) := by
  refine ⟨rfl, rfl, rfl, fun path stat => rfl, fun path stat => rfl⟩

/-- The only time field the scanner keeps: `startTime`, set in `NewScanner`. -/
structure ScannerTimes where
  startTime : Nat

/-- Model of `NewScanner`: records `time.Now()` — the abstract clock instant `now` at
construction — in `startTime`; `Start` never overwrites it. -/
def NewScannerTimes (now : Nat) : ScannerTimes :=
  { startTime := now }

/-- The `duration := time.Since(s.startTime)` that `Start` computes when the
workers have finished, at clock instant `endNow`. -/
def StartDuration (s : ScannerTimes) (endNow : Nat) : Nat :=
  endNow - s.startTime

/-- C10: the duration `Start` reports is measured from construction time, not
from the call to `Start`, so it always contains the construction-to-`Start`
gap (and the derived `FilesPerSecond = fileCount / duration` is diluted by
that same gap). -/
theorem C10_duration_includes_gap (tc ts te : Nat) (h1 : tc ≤ ts)
    (h2 : ts ≤ te) :
    StartDuration (NewScannerTimes tc) te = (te - ts) + (ts - tc) := by
  simp only [StartDuration, NewScannerTimes]
  omega

/-- C10 witness: constructed at 2, `Start` called at 7, finished at 20 — the
reported duration 18 is the 13 seconds of scanning plus the 5-second gap. -/
theorem C10_duration_includes_gap_witness :
    StartDuration (NewScannerTimes 2) 20 = (20 - 7) + (7 - 2) :=
  C10_duration_includes_gap 2 7 20 (by norm_num) (by norm_num)

end FileCounter
